import Mathlib

/-!
# Verification of the finance-tracker ledger engine

Shallow embedding of `src/finance.py` (classes `Category`, `Transaction`,
`FinanceTracker`).  Python floats are modelled as exact rationals (all
inputs of interest are exactly representable); `datetime.date` values are
modelled by their normalized ISO strings, since the engine only ever
compares them for equality; transaction-index inputs are natural numbers.
Interactive `input()` parameters become function arguments, `print`-style
outcomes become explicit result values.
-/

namespace FinanceTracker

/-- A financial transaction, mirroring the `Transaction` dataclass in
`src/finance.py` (value equality over all five fields). -/
structure Transaction where
  date : String
  amount : ℚ
  category : String
  description : String
  transaction_type : String
deriving DecidableEq, Repr

instance : Inhabited Transaction :=
  ⟨{ date := "", amount := 0, category := "", description := "",
     transaction_type := "" }⟩

/-- In-memory state of one `FinanceTracker` instance: the two kind
sequences of `self.transactions` and the insertion-ordered `self.budgets`
dict (modelled as an association list). -/
structure LedgerState where
  income : List Transaction
  expense : List Transaction
  budgets : List (String × ℚ)
deriving DecidableEq, Repr

/-- Sum of the `amount` fields of a list of transactions. -/
def sumAmounts (l : List Transaction) : ℚ :=
  (l.map Transaction.amount).sum

/-- `FinanceTracker.get_balance`: total income minus total expenses. -/
def get_balance (s : LedgerState) : ℚ :=
  sumAmounts s.income - sumAmounts s.expense

/-- The per-kind invariant declared for the ledger snapshot: every
transaction stored under `income` has `transaction_type = "income"` and
every transaction stored under `expense` has `transaction_type = "expense"`. -/
def invariantHolds (s : LedgerState) : Prop :=
  (∀ t ∈ s.income, t.transaction_type = "income") ∧
    (∀ t ∈ s.expense, t.transaction_type = "expense")

instance (s : LedgerState) : Decidable (invariantHolds s) := by
  unfold invariantHolds; infer_instance

/-! ## Categorizer (`Category.auto_categorize`)

The keyword table and the two-pass search (exact lemma match first, then
WordNet-synonym match, first match in token order wins, `"Other"`
fallback) are taken directly from the source.  Tokenization,
lemmatization and the synonym sets are delegated by the source to NLTK /
WordNet, which are external to this repository; those three capabilities
are modelled from the spec below. -/

/-- The fixed keyword → category table of `Category.auto_categorize`. -/
def keywordTable : List (String × String) :=
  [("food", "Groceries"), ("supermarket", "Groceries"),
   ("rent", "Rent"),
   ("electricity", "Utilities"), ("water", "Utilities"),
   ("movie", "Entertainment"), ("cinema", "Entertainment"),
   ("bus", "Transportation"), ("car", "Transportation"),
   ("fuel", "Transportation"), ("uber", "Transportation"),
   ("clothes", "Shopping"), ("shopping", "Shopping"),
   ("hospital", "Health"), ("medication", "Health"),
   ("trip", "Entertainment"), ("shoes", "Shopping"),
   ("drugs", "Health")]

/-- Dictionary lookup `keywords[w]` as used by `auto_categorize`. -/
def lookupKeyword (w : String) : Option String :=
  (keywordTable.find? (fun p => p.1 == w)).map Prod.snd

/-- Splits a character stream into whitespace-separated words. -/
def wordsAux : List Char → List Char → List String
  | [], [] => []
  | [], cur => [String.mk cur.reverse]
  | c :: rest, cur =>
    if c = ' ' then
      match cur with
      | [] => wordsAux rest []
      | _ :: _ => String.mk cur.reverse :: wordsAux rest []
    else wordsAux rest (c :: cur)

/-- `str.lower()`: character-wise lowercasing. -/
def lowerStr (s : String) : String :=
  String.mk (s.data.map Char.toLower)

/-- Modelled from the spec: `nltk.word_tokenize` (external to this
repository) — "tokenize the description into words"; modelled as
whitespace splitting, which agrees on the inputs of interest. -/
def tokenize (s : String) : List String :=
  wordsAux s.data []

/-- Modelled from the spec: `WordNetLemmatizer.lemmatize` (external to
this repository) — "reduce each token to its lexical root (lemma)";
modelled as a finite root table, identity beyond it. -/
def lemmatize (w : String) : String :=
  match (([("buses", "bus"), ("cars", "car"), ("movies", "movie"),
          ("trips", "trip"), ("hospitals", "hospital")] :
            List (String × String)).find? (fun p => p.1 == w)) with
  | some p => p.2
  | none => w

/-- Modelled from the spec: the WordNet synonym expansion
(`wordnet.synsets` / `lemma_names`, external to this repository) — "expand
to its lexical synonym set"; modelled as a finite synonym table, empty
beyond it. -/
def synonyms (w : String) : List String :=
  match (([("automobile", ["car", "auto", "automobile"]),
          ("taxi", ["cab", "taxi"]),
          ("grocery", ["grocery", "food"]),
          ("footwear", ["footwear", "shoes"])] :
            List (String × List String)).find? (fun p => p.1 == w)) with
  | some p => p.2
  | none => []

/-- `Category.auto_categorize`: lower-case and tokenize the description;
first pass returns the category of the first token whose lemma is a
keyword; second pass returns the category of the first token one of whose
lemma synonyms is a keyword; otherwise `"Other"`. -/
def auto_categorize (description : String) : String :=
  let words := tokenize (lowerStr description)
  match words.findSome? (fun w => lookupKeyword (lemmatize w)) with
  | some cat => cat
  | none =>
    match words.findSome?
        (fun w => (synonyms (lemmatize w)).findSome? lookupKeyword) with
    | some cat => cat
    | none => "Other"

/-! ## Transaction engine -/

/-- Outcome of `FinanceTracker.add_transaction`.  The `ok` constructor
carries the two non-fatal warnings the source prints on success (budget
exceeded for the transaction's category, low remaining balance). -/
inductive AddResult where
  | invalidType
  | invalidAmount
  | insufficientBalance
  | duplicate
  | ok (overBudget lowBalance : Bool)
deriving DecidableEq, Repr

/-- The kind sequence `self.transactions[ttype]` (meaningful for
`ttype ∈ {"income", "expense"}`, the only keys of the dict). -/
def seqOf (s : LedgerState) (ttype : String) : List Transaction :=
  if ttype = "income" then s.income else s.expense

/-- Append a transaction to its kind sequence. -/
def appendTo (s : LedgerState) (ttype : String) (t : Transaction) : LedgerState :=
  if ttype = "income" then { s with income := s.income ++ [t] }
  else { s with expense := s.expense ++ [t] }

/-- Total spent on a category: sum of the amounts of the expense
transactions whose `category` equals `c`. -/
def spentOn (s : LedgerState) (c : String) : ℚ :=
  sumAmounts (s.expense.filter (fun t => t.category == c))

/-- Budget lookup `self.budgets.get(c)` on the association-list model. -/
def budgetOf (s : LedgerState) (c : String) : Option ℚ :=
  (s.budgets.find? (fun p => p.1 == c)).map Prod.snd

/-- The transaction built by `add_transaction` from its validated inputs:
the category comes from the Categorizer for expenses and is fixed to
`"Salary"` for income. -/
def mkTransaction (ttype date : String) (amount : ℚ) (description : String) :
    Transaction :=
  { date := date, amount := amount,
    category := if ttype = "expense" then auto_categorize description else "Salary",
    description := description, transaction_type := ttype }

/-- `FinanceTracker.add_transaction`, with the interactive inputs as
arguments.  Checks run in source order: kind validity, positivity,
balance (expenses only), duplicate against the matching kind sequence;
on success the transaction is appended and the warnings computed. -/
def add_transaction (s : LedgerState) (ttype date : String) (amount : ℚ)
    (description : String) : LedgerState × AddResult :=
  if ttype ≠ "income" ∧ ttype ≠ "expense" then (s, .invalidType)
  else if amount ≤ 0 then (s, .invalidAmount)
  else if ttype = "expense" ∧ get_balance s < amount then (s, .insufficientBalance)
  else
    let t := mkTransaction ttype date amount description
    if t ∈ seqOf s ttype then (s, .duplicate)
    else
      let s1 := appendTo s ttype t
      let overB : Bool :=
        decide (ttype = "expense") &&
          (match budgetOf s1 t.category with
           | some b => decide (b < spentOn s1 t.category)
           | none => false)
      (s1, .ok overB (decide (get_balance s1 < 100)))

/-- Outcome of `FinanceTracker.update_transaction`. -/
inductive UpdateResult where
  | ok
  | indexOutOfRange
deriving DecidableEq, Repr

/-- The optional replacement values entered during
`update_transaction`; `none` models pressing enter (keep the old value). -/
structure UpdateFields where
  date : Option String := none
  amount : Option ℚ := none
  category : Option String := none
  description : Option String := none
  ttype : Option String := none
deriving DecidableEq, Repr

/-- Apply the replacement fields to a transaction (the in-place mutation
of the addressed object in the source). -/
def applyUpdate (f : UpdateFields) (t : Transaction) : Transaction :=
  { date := f.date.getD t.date, amount := f.amount.getD t.amount,
    category := f.category.getD t.category,
    description := f.description.getD t.description,
    transaction_type := f.ttype.getD t.transaction_type }

/-- `FinanceTracker.update_transaction`: the index addresses the combined
`income ++ expense` view; the addressed object is mutated in place, i.e.
updated inside whichever sequence it already occupies — changing its
`transaction_type` does not move it between sequences. -/
def update_transaction (s : LedgerState) (index : ℕ) (f : UpdateFields) :
    LedgerState × UpdateResult :=
  let view := s.income ++ s.expense
  if index < view.length then
    let t := view.getD index default
    let t1 := applyUpdate f t
    if index < s.income.length then
      ({ s with income := s.income.set index t1 }, .ok)
    else
      ({ s with expense := s.expense.set (index - s.income.length) t1 }, .ok)
  else (s, .indexOutOfRange)

/-! ## Deletion (`FinanceTracker.delete_transaction`) -/

/-- Outcome of `delete_transaction`.  `internalError` models the
uncaught-in-branch situations (`list.remove` on an absent value, a
`transaction_type` outside the dict's keys) that the source's generic
`except ValueError` would swallow after partial mutation; it is
unreachable from states satisfying the per-kind invariant. -/
inductive DeleteResult where
  | ok
  | indexOutOfRange
  | internalError
deriving DecidableEq, Repr

/-- Python's `list.remove`: drop the first element equal to `x` (the
caller guarantees presence; an absent `x` is surfaced as `internalError`
by `deleteLoop`). -/
def removeFirst (x : Transaction) : List Transaction → List Transaction
  | [] => []
  | y :: ys => if y = x then ys else y :: removeFirst x ys

/-- Insert into a strictly descending list, dropping duplicates. -/
def insertDesc (i : ℕ) : List ℕ → List ℕ
  | [] => [i]
  | j :: rest =>
    if j < i then i :: j :: rest
    else if i = j then j :: rest
    else j :: insertDesc i rest

/-- `sorted(set(indices), reverse=True)`: the distinct requested indices
in strictly descending order. -/
def sortDescDedup (l : List ℕ) : List ℕ :=
  l.foldr insertDesc []

/-- Remove the first element equal to `t` from the kind sequence named by
`t.transaction_type` (the `self.transactions[...].remove(transaction)`
line); fails if the value is absent or the kind is not a dict key. -/
def deleteStep (s : LedgerState) (t : Transaction) : Option LedgerState :=
  if t.transaction_type = "income" then
    if t ∈ s.income then some { s with income := removeFirst t s.income } else none
  else if t.transaction_type = "expense" then
    if t ∈ s.expense then some { s with expense := removeFirst t s.expense } else none
  else none

/-- The deletion loop: for each requested index (descending), pop the
addressed transaction from the working copy of the combined view and
remove it from its kind sequence. -/
def deleteLoop : List ℕ → List Transaction → LedgerState → LedgerState × Bool
  | [], _, s => (s, true)
  | i :: rest, view, s =>
    match view.get? i with
    | none => (s, false)
    | some t =>
      match deleteStep s t with
      | none => (s, false)
      | some s1 => deleteLoop rest (view.eraseIdx i) s1

/-- `FinanceTracker.delete_transaction`: validates that every requested
index is within the combined `income ++ expense` view before removing
anything; otherwise removes the addressed transactions in descending
index order. -/
def delete_transaction (s : LedgerState) (indices : List ℕ) :
    LedgerState × DeleteResult :=
  let view := s.income ++ s.expense
  let sorted := sortDescDedup indices
  if sorted.all (fun i => i < view.length) then
    match deleteLoop sorted view s with
    | (s1, true) => (s1, .ok)
    | (s1, false) => (s1, .internalError)
  else (s, .indexOutOfRange)

/-! ## Budgets (`FinanceTracker.set_budget`) -/

/-- Outcome of `set_budget`. -/
inductive BudgetResult where
  | invalidAmount
  | budgetExceedsIncome
  | ok
deriving DecidableEq, Repr

/-- Python dict upsert `self.budgets[category] = amount`: overwrite in
place if the key exists, append otherwise. -/
def upsert (k : String) (v : ℚ) : List (String × ℚ) → List (String × ℚ)
  | [] => [(k, v)]
  | (k1, v1) :: rest =>
    if k1 = k then (k1, v) :: rest else (k1, v1) :: upsert k v rest

/-- Sum of all budgeted amounts, `sum(self.budgets.values())`. -/
def budgetSum (b : List (String × ℚ)) : ℚ :=
  (b.map Prod.snd).sum

/-- Total income recorded to date. -/
def totalIncome (s : LedgerState) : ℚ :=
  sumAmounts s.income

/-- `FinanceTracker.set_budget`: positive amount required; rejected when
the sum of all existing budget amounts plus the new amount exceeds total
income (note: an existing entry for the same category is not subtracted
first); otherwise the category's entry is upserted. -/
def set_budget (s : LedgerState) (category : String) (amount : ℚ) :
    LedgerState × BudgetResult :=
  if amount ≤ 0 then (s, .invalidAmount)
  else if totalIncome s < budgetSum s.budgets + amount then
    (s, .budgetExceedsIncome)
  else ({ s with budgets := upsert category amount s.budgets }, .ok)

/-! ## Import (`FinanceTracker.import_transactions`)

A source file is modelled as the list of its rows after field extraction:
`none` in `date` models a value `pandas.to_datetime` cannot parse (that
parse is applied to the whole column before the row loop), `none` in
`amount` models a value `float(...)` rejects (that conversion happens per
row inside the loop). -/

/-- One raw row of a CSV/JSON import source. -/
structure RawRow where
  date : Option String
  amount : Option ℚ
  category : String
  description : String
  transaction_type : String
deriving DecidableEq, Repr

/-- Outcome of `import_transactions`: either the generic error path (the
caught `ValueError`/`KeyError`) or success with the added/duplicate
counts. -/
inductive ImportResult where
  | malformed
  | ok (added duplicate : ℕ)
deriving DecidableEq, Repr

/-- The transaction a well-formed row constructs. -/
def rowTransaction (r : RawRow) : Transaction :=
  { date := r.date.getD "", amount := r.amount.getD 0,
    category := r.category, description := r.description,
    transaction_type := r.transaction_type }

/-- The row loop of `import_transactions`: convert the amount (failing
aborts the loop, keeping the rows already appended), skip exact
duplicates of the live target kind sequence, append everything else.  No
balance or budget check is performed. -/
def importLoop : LedgerState → ℕ → ℕ → List RawRow → LedgerState × ImportResult
  | s, added, dup, [] => (s, .ok added dup)
  | s, added, dup, r :: rest =>
    match r.date, r.amount with
    | some _, some _ =>
      let t := rowTransaction r
      if r.transaction_type = "income" then
        if t ∈ s.income then importLoop s added (dup + 1) rest
        else importLoop { s with income := s.income ++ [t] } (added + 1) dup rest
      else if r.transaction_type = "expense" then
        if t ∈ s.expense then importLoop s added (dup + 1) rest
        else importLoop { s with expense := s.expense ++ [t] } (added + 1) dup rest
      else (s, .malformed)
    | _, _ => (s, .malformed)

/-- `FinanceTracker.import_transactions`: the date column is parsed up
front (any unparseable date fails the call before any mutation), then the
row loop runs. -/
def import_transactions (s : LedgerState) (rows : List RawRow) :
    LedgerState × ImportResult :=
  if rows.any (fun r => r.date.isNone) then (s, .malformed)
  else importLoop s 0 0 rows

/-- A row every field of which the import path can process: parseable
date and amount, and a `transaction_type` that is a key of the
transactions dict. -/
def wellFormedRow (r : RawRow) : Prop :=
  r.date.isSome ∧ r.amount.isSome ∧
    (r.transaction_type = "income" ∨ r.transaction_type = "expense")

instance (r : RawRow) : Decidable (wellFormedRow r) := by
  unfold wellFormedRow; infer_instance

/-- `dropMarked idxs off l`: the elements of `l` whose absolute position
(`off` plus the element's offset in `l`) is not among `idxs` — i.e. `l`
with exactly the addressed positions removed. -/
def dropMarked (idxs : List ℕ) : ℕ → List Transaction → List Transaction
  | _, [] => []
  | off, x :: xs =>
    if off ∈ idxs then dropMarked idxs (off + 1) xs
    else x :: dropMarked idxs (off + 1) xs

/-! ## Claim theorems -/

/-- C8: the Categorizer is a pure function of the description; on the
spec's examples it returns `Transportation` for "Uber ride downtown",
`Shopping` for "bought new shoes", `Other` for "xyz unknown item", and
`Other` for the empty description. -/
theorem categorizer_examples :
    auto_categorize "Uber ride downtown" = "Transportation" ∧
      auto_categorize "bought new shoes" = "Shopping" ∧
      auto_categorize "xyz unknown item" = "Other" ∧
      auto_categorize "" = "Other" := by
  refine ⟨?_, ?_, ?_, ?_⟩ <;> decide

/-- C4: an expense add whose (positive) amount exceeds the current
balance is rejected with `InsufficientBalance` and the whole ledger state
(transaction sequences and budget map) is returned unchanged. -/
theorem add_insufficient_balance_rejected (s : LedgerState)
    (date : String) (amount : ℚ) (description : String)
    (hpos : 0 < amount) (hbal : get_balance s < amount) :
    add_transaction s "expense" date amount description =
      (s, .insufficientBalance) := by
  unfold add_transaction
  rw [if_neg (fun h => h.2 rfl), if_neg (not_le.mpr hpos), if_pos ⟨rfl, hbal⟩]

/-- Witness for C4: balance 10, expense of 20 is rejected in place. -/
theorem add_insufficient_balance_rejected_witness :
    add_transaction
        ⟨[⟨"2024-01-01", 10, "Salary", "pay", "income"⟩], [], []⟩
        "expense" "2024-01-02" 20 "bus fare" =
      (⟨[⟨"2024-01-01", 10, "Salary", "pay", "income"⟩], [], []⟩,
        .insufficientBalance) :=
  add_insufficient_balance_rejected _ _ _ _ (by norm_num)
    (by norm_num [get_balance, sumAmounts])

/-- C6: for a positive amount, `set_budget` rejects with
`BudgetExceedsIncome` exactly when the sum of all existing budget
amounts plus the new amount exceeds total income; otherwise it upserts
the category's entry, leaving both transaction sequences unchanged. -/
theorem set_budget_contract (s : LedgerState) (category : String)
    (amount : ℚ) (hpos : 0 < amount) :
    (totalIncome s < budgetSum s.budgets + amount →
        set_budget s category amount = (s, .budgetExceedsIncome)) ∧
      (budgetSum s.budgets + amount ≤ totalIncome s →
        set_budget s category amount =
          ({ s with budgets := upsert category amount s.budgets }, .ok)) := by
  constructor
  · intro h
    rw [set_budget, if_neg (not_le.mpr hpos), if_pos h]
  · intro h
    rw [set_budget, if_neg (not_le.mpr hpos), if_neg (not_lt.mpr h)]

/-- Witness for C6, the spec's example: income 1000, existing budgets
sum to 800, a request for a further 300 is rejected. -/
theorem set_budget_contract_witness :
    set_budget
        ⟨[⟨"2024-01-01", 1000, "Salary", "pay", "income"⟩], [],
          [("Rent", 800)]⟩ "Shopping" 300 =
      (⟨[⟨"2024-01-01", 1000, "Salary", "pay", "income"⟩], [],
          [("Rent", 800)]⟩, .budgetExceedsIncome) :=
  (set_budget_contract _ "Shopping" 300 (by norm_num)).1
    (by norm_num [totalIncome, budgetSum, sumAmounts])

/-- C9: re-setting a category's budget to its current amount can be
rejected: with income 100 and `Groceries` already budgeted at 60,
`set_budget "Groceries" 60` fails with `BudgetExceedsIncome`, although
the upserted budget map would still sum to only 60 ≤ 100. -/
theorem set_budget_rebudget_rejected :
    set_budget
        ⟨[⟨"2024-01-01", 100, "Salary", "january pay", "income"⟩], [],
          [("Groceries", 60)]⟩ "Groceries" 60 =
      (⟨[⟨"2024-01-01", 100, "Salary", "january pay", "income"⟩], [],
          [("Groceries", 60)]⟩, .budgetExceedsIncome) ∧
    budgetSum (upsert "Groceries" 60 [("Groceries", 60)]) ≤
      totalIncome
        ⟨[⟨"2024-01-01", 100, "Salary", "january pay", "income"⟩], [],
          [("Groceries", 60)]⟩ := by
  refine ⟨?_, ?_⟩ <;> norm_num [set_budget, totalIncome, budgetSum, sumAmounts, upsert]

/-- C1: evaluation at the failing input: updating the only (income)
transaction's kind to `"expense"` succeeds but leaves the record in the
`income` sequence, so the per-kind invariant is broken. -/
theorem update_kind_breaks_invariant :
    update_transaction
        ⟨[⟨"2024-01-01", 100, "Salary", "january pay", "income"⟩], [], []⟩ 0
        { ttype := some "expense" } =
      (⟨[⟨"2024-01-01", 100, "Salary", "january pay", "expense"⟩], [], []⟩,
        .ok) ∧
    ¬ invariantHolds
        ⟨[⟨"2024-01-01", 100, "Salary", "january pay", "expense"⟩], [], []⟩ := by
  decide

/-! ### Import lemmas -/

/-- The import row loop never touches the budget map. -/
lemma importLoop_budgets :
    ∀ (rows : List RawRow) (s : LedgerState) (a d : ℕ),
      (importLoop s a d rows).1.budgets = s.budgets
  | [], _, _, _ => rfl
  | r :: rest, s, a, d => by
    unfold importLoop
    rcases r.date with _ | ds
    · rfl
    · rcases r.amount with _ | q
      · rfl
      · dsimp only
        split_ifs with h1 h2 h3 h4 <;>
          first
            | rfl
            | exact importLoop_budgets rest _ _ _

/-- Unfolding equation of the import loop at a row whose date and amount
both parse. -/
lemma importLoop_cons_wf (p : RawRow) (rows : List RawRow)
    (s : LedgerState) (a d : ℕ)
    (hd : p.date.isSome) (ha : p.amount.isSome) :
    importLoop s a d (p :: rows) =
      if p.transaction_type = "income" then
        (if rowTransaction p ∈ s.income then importLoop s a (d + 1) rows
         else importLoop { s with income := s.income ++ [rowTransaction p] }
           (a + 1) d rows)
      else if p.transaction_type = "expense" then
        (if rowTransaction p ∈ s.expense then importLoop s a (d + 1) rows
         else importLoop { s with expense := s.expense ++ [rowTransaction p] }
           (a + 1) d rows)
      else (s, .malformed) := by
  obtain ⟨ds, hds⟩ := Option.isSome_iff_exists.mp hd
  obtain ⟨q, hq⟩ := Option.isSome_iff_exists.mp ha
  simp only [importLoop]
  rw [hds, hq]

/-- A malformed amount or unrecognized kind in the middle of an import
aborts the loop there, keeping exactly the state produced by the rows
before it. -/
lemma importLoop_bad_row (r : RawRow) (rest : List RawRow)
    (hbad : r.amount = none ∨
      (r.transaction_type ≠ "income" ∧ r.transaction_type ≠ "expense")) :
    ∀ (pre : List RawRow) (s : LedgerState) (a d : ℕ),
      (∀ q ∈ pre, wellFormedRow q) →
      importLoop s a d (pre ++ r :: rest) =
        ((importLoop s a d pre).1, .malformed)
  | [], s, a, d, _ => by
    show importLoop s a d (r :: rest) = (s, .malformed)
    unfold importLoop
    rcases hd : r.date with _ | ds
    · rfl
    · rcases ha : r.amount with _ | q
      · rfl
      · rcases hbad with hnone | ⟨hni, hne⟩
        · rw [ha] at hnone; cases hnone
        · dsimp only
          rw [if_neg hni, if_neg hne]
  | p :: pre, s, a, d, hwf => by
    obtain ⟨hdate, hamt, _⟩ := hwf p (List.mem_cons_self p pre)
    have hwf1 : ∀ x ∈ pre, wellFormedRow x := fun x hx =>
      hwf x (List.mem_cons_of_mem p hx)
    show importLoop s a d (p :: (pre ++ r :: rest)) = _
    rw [importLoop_cons_wf p (pre ++ r :: rest) s a d hdate hamt,
      importLoop_cons_wf p pre s a d hdate hamt]
    split_ifs with h1 hmem h2 hmem <;>
      first
        | rfl
        | exact importLoop_bad_row r rest hbad pre _ _ _ hwf1

/-- C2, counterexample: importing a source whose first row is good and
whose second row has an unparseable amount reports the malformed-data
error, yet leaves the first row committed in the income sequence — the
ledger state is not what it was before the call. -/
theorem import_malformed_partial_commit_cex :
    import_transactions ⟨[], [], []⟩
        [⟨some "2024-01-01", some 100, "Salary", "january pay", "income"⟩,
         ⟨some "2024-01-02", none, "Other", "broken row", "expense"⟩] =
      (⟨[⟨"2024-01-01", 100, "Salary", "january pay", "income"⟩], [], []⟩,
        .malformed) ∧
    (⟨[⟨"2024-01-01", 100, "Salary", "january pay", "income"⟩], [], []⟩ :
        LedgerState) ≠ ⟨[], [], []⟩ := by
  decide

/-- C2, amended: an unparseable date anywhere in the source fails the
whole import before any mutation; the budget map is never changed by
importing; and a row with an unparseable amount (or unrecognized kind)
fails the import after exactly the well-formed rows before it have been
committed to the in-memory sequences. -/
theorem import_malformed_no_save (s : LedgerState)
    (rows pre rest : List RawRow) (r : RawRow) :
    ((∃ r2 ∈ rows, r2.date = none) →
      import_transactions s rows = (s, .malformed)) ∧
    (import_transactions s rows).1.budgets = s.budgets ∧
    ((∀ q ∈ pre, wellFormedRow q) →
      r.date.isSome →
      (r.amount = none ∨
        (r.transaction_type ≠ "income" ∧ r.transaction_type ≠ "expense")) →
      (∀ q ∈ rest, q.date.isSome) →
      import_transactions s (pre ++ r :: rest) =
        ((import_transactions s pre).1, .malformed)) := by
  refine ⟨?_, ?_, ?_⟩
  · rintro ⟨r2, hm, hr2⟩
    have hany : rows.any (fun x => x.date.isNone) = true :=
      List.any_eq_true.mpr ⟨r2, hm, by rw [hr2]; rfl⟩
    simp only [import_transactions, hany, if_true]
  · simp only [import_transactions]
    split
    · rfl
    · exact importLoop_budgets rows s 0 0
  · intro hpre hrd hbad hrest
    have hany1 : (pre ++ r :: rest).any (fun x => x.date.isNone) = false := by
      rw [List.any_eq_false]
      intro x hx
      rcases List.mem_append.mp hx with hx | hx
      · have := (hpre x hx).1
        simp [Option.isNone_iff_eq_none]
        exact Option.isSome_iff_ne_none.mp this
      · rcases List.mem_cons.mp hx with rfl | hx
        · simp [Option.isNone_iff_eq_none]
          exact Option.isSome_iff_ne_none.mp hrd
        · simp [Option.isNone_iff_eq_none]
          exact Option.isSome_iff_ne_none.mp (hrest x hx)
    have hany2 : pre.any (fun x => x.date.isNone) = false := by
      rw [List.any_eq_false]
      intro x hx
      simp [Option.isNone_iff_eq_none]
      exact Option.isSome_iff_ne_none.mp (hpre x hx).1
    simp only [import_transactions, hany1, hany2, Bool.false_eq_true,
      if_false]
    exact importLoop_bad_row r rest hbad pre s 0 0 hpre

/-- Behaviour of the import row loop on a fully well-formed suffix:
success with exact added/duplicate accounting, budgets untouched, both
kind sequences only extended, no duplicate introduced, and every row
present in its kind sequence afterwards. -/
lemma importLoop_wf_spec :
    ∀ (rows : List RawRow) (s : LedgerState) (a d : ℕ),
      (∀ r ∈ rows, wellFormedRow r) →
      ∃ s1 a1 d1,
        importLoop s a d rows = (s1, .ok (a + a1) (d + d1)) ∧
        a1 + d1 = rows.length ∧
        s1.budgets = s.budgets ∧
        (∃ l, s1.income = s.income ++ l) ∧
        (∃ l, s1.expense = s.expense ++ l) ∧
        s1.income.length + s1.expense.length
          = s.income.length + s.expense.length + a1 ∧
        (s.income.Nodup → s.expense.Nodup →
          s1.income.Nodup ∧ s1.expense.Nodup) ∧
        (∀ r ∈ rows, rowTransaction r ∈ seqOf s1 r.transaction_type)
  | [], s, a, d, _ =>
    ⟨s, 0, 0, by simp [importLoop], rfl, rfl, ⟨[], by simp⟩, ⟨[], by simp⟩,
      by simp, fun h1 h2 => ⟨h1, h2⟩, by simp⟩
  | p :: rows, s, a, d, hwf => by
    obtain ⟨hdate, hamt, htype⟩ := hwf p (List.mem_cons_self p rows)
    have hwf1 : ∀ x ∈ rows, wellFormedRow x := fun x hx =>
      hwf x (List.mem_cons_of_mem p hx)
    rw [importLoop_cons_wf p rows s a d hdate hamt]
    rcases htype with h1 | h1
    · rw [if_pos h1]
      by_cases hmem : rowTransaction p ∈ s.income
      · rw [if_pos hmem]
        obtain ⟨s1, a1, d1, heq, hlen, hbud, ⟨li, hli⟩, ⟨le, hle⟩, hcount,
          hnodup, hmemall⟩ := importLoop_wf_spec rows s a (d + 1) hwf1
        have hd : d + 1 + d1 = d + (d1 + 1) := by omega
        rw [hd] at heq
        refine ⟨s1, a1, d1 + 1, heq, by simpa using by omega, hbud,
          ⟨li, hli⟩, ⟨le, hle⟩, hcount, hnodup, ?_⟩
        intro r hr
        rcases List.mem_cons.mp hr with rfl | hr
        · rw [h1]
          show rowTransaction r ∈ seqOf s1 "income"
          rw [seqOf, if_pos rfl, hli]
          exact List.mem_append_left li hmem
        · exact hmemall r hr
      · rw [if_neg hmem]
        obtain ⟨s1, a1, d1, heq, hlen, hbud, ⟨li, hli⟩, ⟨le, hle⟩, hcount,
          hnodup, hmemall⟩ := importLoop_wf_spec rows
            { s with income := s.income ++ [rowTransaction p] } (a + 1) d hwf1
        have ha : a + 1 + a1 = a + (a1 + 1) := by omega
        rw [ha] at heq
        refine ⟨s1, a1 + 1, d1, heq, by simpa using by omega, hbud,
          ⟨[rowTransaction p] ++ li, by rw [hli, List.append_assoc]⟩,
          ⟨le, hle⟩, ?_, ?_, ?_⟩
        · have h2 := hcount
          simp only [List.length_append, List.length_singleton] at h2
          omega
        · intro hni hne
          refine hnodup ?_ hne
          rw [List.nodup_append]
          exact ⟨hni, List.nodup_singleton _,
            fun x hx hx1 => hmem ((List.mem_singleton.mp hx1) ▸ hx)⟩
        · intro r hr
          rcases List.mem_cons.mp hr with rfl | hr
          · rw [h1]
            show rowTransaction r ∈ seqOf s1 "income"
            rw [seqOf, if_pos rfl, hli]
            exact List.mem_append_left li
              (List.mem_append_right s.income (List.mem_singleton_self _))
          · exact hmemall r hr
    · rw [if_neg (by rw [h1]; decide), if_pos h1]
      by_cases hmem : rowTransaction p ∈ s.expense
      · rw [if_pos hmem]
        obtain ⟨s1, a1, d1, heq, hlen, hbud, ⟨li, hli⟩, ⟨le, hle⟩, hcount,
          hnodup, hmemall⟩ := importLoop_wf_spec rows s a (d + 1) hwf1
        have hd : d + 1 + d1 = d + (d1 + 1) := by omega
        rw [hd] at heq
        refine ⟨s1, a1, d1 + 1, heq, by simpa using by omega, hbud,
          ⟨li, hli⟩, ⟨le, hle⟩, hcount, hnodup, ?_⟩
        intro r hr
        rcases List.mem_cons.mp hr with rfl | hr
        · rw [h1]
          show rowTransaction r ∈ seqOf s1 "expense"
          rw [seqOf, if_neg (by decide), hle]
          exact List.mem_append_left le hmem
        · exact hmemall r hr
      · rw [if_neg hmem]
        obtain ⟨s1, a1, d1, heq, hlen, hbud, ⟨li, hli⟩, ⟨le, hle⟩, hcount,
          hnodup, hmemall⟩ := importLoop_wf_spec rows
            { s with expense := s.expense ++ [rowTransaction p] } (a + 1) d hwf1
        have ha : a + 1 + a1 = a + (a1 + 1) := by omega
        rw [ha] at heq
        refine ⟨s1, a1 + 1, d1, heq, by simpa using by omega, hbud,
          ⟨li, hli⟩,
          ⟨[rowTransaction p] ++ le, by rw [hle, List.append_assoc]⟩, ?_, ?_, ?_⟩
        · have h2 := hcount
          simp only [List.length_append, List.length_singleton] at h2
          omega
        · intro hni hne
          refine hnodup hni ?_
          rw [List.nodup_append]
          exact ⟨hne, List.nodup_singleton _,
            fun x hx hx1 => hmem ((List.mem_singleton.mp hx1) ▸ hx)⟩
        · intro r hr
          rcases List.mem_cons.mp hr with rfl | hr
          · rw [h1]
            show rowTransaction r ∈ seqOf s1 "expense"
            rw [seqOf, if_neg (by decide), hle]
            exact List.mem_append_left le
              (List.mem_append_right s.expense (List.mem_singleton_self _))
          · exact hmemall r hr

/-- C7: importing a fully well-formed source succeeds with
`added_count + duplicate_count` equal to the number of rows; the budget
map is untouched and no balance check is applied (every row ends up
present in its kind sequence, and the rejected-versus-appended decision
is visible in the counts: `added_count` is exactly the growth of the two
sequences); existing entries are only extended, never rewritten, and no
duplicate is introduced into a duplicate-free sequence. -/
theorem import_wellformed_summary (s : LedgerState) (rows : List RawRow)
    (hwf : ∀ r ∈ rows, wellFormedRow r) :
    ∃ s1 a d,
      import_transactions s rows = (s1, .ok a d) ∧
      a + d = rows.length ∧
      s1.budgets = s.budgets ∧
      (∃ l, s1.income = s.income ++ l) ∧
      (∃ l, s1.expense = s.expense ++ l) ∧
      s1.income.length + s1.expense.length
        = s.income.length + s.expense.length + a ∧
      (s.income.Nodup → s.expense.Nodup →
        s1.income.Nodup ∧ s1.expense.Nodup) ∧
      (∀ r ∈ rows, rowTransaction r ∈ seqOf s1 r.transaction_type) := by
  have hany : rows.any (fun x => x.date.isNone) = false := by
    rw [List.any_eq_false]
    intro x hx
    simp only [Bool.not_eq_true, Option.isNone_eq_false_iff]
    exact (hwf x hx).1
  obtain ⟨s1, a1, d1, heq, hrest⟩ := importLoop_wf_spec rows s 0 0 hwf
  refine ⟨s1, a1, d1, ?_, hrest⟩
  rw [import_transactions, hany]
  simpa using heq

/-- Witness for C7: importing two rows — a duplicate of a stored expense
and a fresh income row — into a one-expense ledger. -/
theorem import_wellformed_summary_witness :
    ∃ s1 a d,
      import_transactions
          ⟨[], [⟨"2024-01-01", 30, "Groceries", "food run", "expense"⟩], []⟩
          [⟨some "2024-01-01", some 30, "Groceries", "food run", "expense"⟩,
           ⟨some "2024-01-02", some 50, "Salary", "pay", "income"⟩] =
        (s1, .ok a d) ∧
      a + d = 2 ∧
      s1.budgets = ([] : List (String × ℚ)) ∧
      (∃ l, s1.income = [] ++ l) ∧
      (∃ l, s1.expense =
        [⟨"2024-01-01", 30, "Groceries", "food run", "expense"⟩] ++ l) ∧
      s1.income.length + s1.expense.length = 0 + 1 + a ∧
      (List.Nodup ([] : List Transaction) →
        List.Nodup [(⟨"2024-01-01", 30, "Groceries", "food run", "expense"⟩ :
          Transaction)] →
        s1.income.Nodup ∧ s1.expense.Nodup) ∧
      (∀ r ∈ [(⟨some "2024-01-01", some 30, "Groceries", "food run",
            "expense"⟩ : RawRow),
          ⟨some "2024-01-02", some 50, "Salary", "pay", "income"⟩],
        rowTransaction r ∈ seqOf s1 r.transaction_type) :=
  import_wellformed_summary
    ⟨[], [⟨"2024-01-01", 30, "Groceries", "food run", "expense"⟩], []⟩
    [⟨some "2024-01-01", some 30, "Groceries", "food run", "expense"⟩,
     ⟨some "2024-01-02", some 50, "Salary", "pay", "income"⟩]
    (by decide)

/-- Appending to a kind sequence extends exactly that sequence. -/
lemma seqOf_appendTo (s : LedgerState) (ttype : String) (t : Transaction) :
    seqOf (appendTo s ttype t) ttype = seqOf s ttype ++ [t] := by
  by_cases h : ttype = "income" <;> simp [seqOf, appendTo, h]

/-- C3, counterexample: after income 100, adding the expense
`(2024-01-02, 60, bus fare)` succeeds; immediately re-adding the
identical expense is rejected with `InsufficientBalance` (the balance
check precedes the duplicate check, and the balance is now 40), not with
`DuplicateTransaction`.  The state is unchanged by the second call, as
shown by its left component. -/
theorem add_duplicate_insufficient_cex :
    add_transaction ⟨[⟨"2024-01-01", 100, "Salary", "pay", "income"⟩], [], []⟩
        "expense" "2024-01-02" 60 "bus fare" =
      (⟨[⟨"2024-01-01", 100, "Salary", "pay", "income"⟩],
        [⟨"2024-01-02", 60, "Transportation", "bus fare", "expense"⟩], []⟩,
        .ok false true) ∧
    add_transaction
        ⟨[⟨"2024-01-01", 100, "Salary", "pay", "income"⟩],
         [⟨"2024-01-02", 60, "Transportation", "bus fare", "expense"⟩], []⟩
        "expense" "2024-01-02" 60 "bus fare" =
      (⟨[⟨"2024-01-01", 100, "Salary", "pay", "income"⟩],
        [⟨"2024-01-02", 60, "Transportation", "bus fare", "expense"⟩], []⟩,
        .insufficientBalance) ∧
    AddResult.insufficientBalance ≠ AddResult.duplicate := by
  have hcat : auto_categorize "bus fare" = "Transportation" := by decide
  refine ⟨?_, ?_, by decide⟩ <;>
    · simp only [add_transaction, mkTransaction, hcat]
      simp [get_balance, sumAmounts, seqOf, appendTo, budgetOf, spentOn]
      norm_num

/-- C3, amended: after a successful add, re-adding the identical
transaction never inserts — the state is unchanged and exactly one copy
is stored in the matching kind sequence — but the second call's signal
is `DuplicateTransaction` only when it passes the balance check first
(always for income; for an expense, only when the amount does not exceed
the post-first-add balance), and `InsufficientBalance` otherwise. -/
theorem add_duplicate_second_call (s : LedgerState) (ttype date : String)
    (amount : ℚ) (description : String) (s1 : LedgerState) (ob lb : Bool)
    (h1 : add_transaction s ttype date amount description = (s1, .ok ob lb)) :
    add_transaction s1 ttype date amount description =
      (s1, if ttype = "expense" ∧ get_balance s1 < amount then
        AddResult.insufficientBalance else AddResult.duplicate) ∧
    List.count (mkTransaction ttype date amount description)
      (seqOf s1 ttype) = 1 ∧
    mkTransaction ttype date amount description ∉ seqOf s ttype := by
  rw [add_transaction] at h1
  split_ifs at h1 with hty hamt hbal
  · exact absurd (congrArg Prod.snd h1) (by simp)
  · exact absurd (congrArg Prod.snd h1) (by simp)
  · exact absurd (congrArg Prod.snd h1) (by simp)
  dsimp only at h1
  split_ifs at h1 with hdup
  · exact absurd (congrArg Prod.snd h1) (by simp)
  · have hs1 : s1 = appendTo s ttype (mkTransaction ttype date amount description) :=
      (congrArg Prod.fst h1).symm
    refine ⟨?_, ?_, hdup⟩
    · have hmem2 : mkTransaction ttype date amount description ∈ seqOf s1 ttype := by
        rw [hs1, seqOf_appendTo]
        exact List.mem_append_right _ (List.mem_singleton_self _)
      rw [add_transaction, if_neg hty, if_neg hamt]
      by_cases hbal2 : ttype = "expense" ∧ get_balance s1 < amount
      · rw [if_pos hbal2, if_pos hbal2]
      · rw [if_neg hbal2, if_neg hbal2, if_pos hmem2]
    · rw [hs1, seqOf_appendTo, List.count_append]
      rw [List.count_eq_zero.mpr hdup]
      simp

/-- Witness for C3 amended: adding the same income twice; the second
call leaves the state unchanged, reports a duplicate, and one copy is
stored. -/
theorem add_duplicate_second_call_witness :
    add_transaction
        ⟨[⟨"2024-01-01", 100, "Salary", "salary pay", "income"⟩], [], []⟩
        "income" "2024-01-01" 100 "salary pay" =
      (⟨[⟨"2024-01-01", 100, "Salary", "salary pay", "income"⟩], [], []⟩,
        if ("income" : String) = "expense" ∧
            get_balance ⟨[⟨"2024-01-01", 100, "Salary", "salary pay",
              "income"⟩], [], []⟩ < 100 then
          AddResult.insufficientBalance
        else AddResult.duplicate) ∧
    List.count (mkTransaction "income" "2024-01-01" 100 "salary pay")
      (seqOf ⟨[⟨"2024-01-01", 100, "Salary", "salary pay", "income"⟩], [], []⟩
        "income") = 1 ∧
    mkTransaction "income" "2024-01-01" 100 "salary pay" ∉
      seqOf ⟨[], [], []⟩ "income" :=
  add_duplicate_second_call ⟨[], [], []⟩ "income" "2024-01-01" 100
    "salary pay" _ false false
    (by simp only [add_transaction, mkTransaction]
        simp [get_balance, sumAmounts, seqOf, appendTo, budgetOf, spentOn])

/-- Witness for C2 amended: a good row followed by a bad-amount row ends
in the malformed error with exactly the good prefix committed. -/
theorem import_malformed_no_save_witness :
    import_transactions ⟨[], [], []⟩
        [⟨some "2024-01-01", some 100, "Salary", "january pay", "income"⟩,
         ⟨some "2024-01-02", none, "Other", "broken row", "expense"⟩] =
      ((import_transactions ⟨[], [], []⟩
          [⟨some "2024-01-01", some 100, "Salary", "january pay",
            "income"⟩]).1,
        .malformed) :=
  (import_malformed_no_save ⟨[], [], []⟩
      [⟨some "2024-01-01", some 100, "Salary", "january pay", "income"⟩,
       ⟨some "2024-01-02", none, "Other", "broken row", "expense"⟩]
      [⟨some "2024-01-01", some 100, "Salary", "january pay", "income"⟩]
      [] ⟨some "2024-01-02", none, "Other", "broken row", "expense"⟩).2.2
    (by decide) (by decide) (by decide) (by decide)

/-- C10, counterexample: a well-formed row with a non-positive amount
that duplicates an already-stored transaction is skipped and counted as
a duplicate — it is not appended, and `added_count` is 0. -/
theorem import_nonpositive_duplicate_skipped_cex :
    import_transactions
        ⟨[], [⟨"2024-01-01", -5, "Other", "refund adjustment", "expense"⟩], []⟩
        [⟨some "2024-01-01", some (-5), "Other", "refund adjustment",
          "expense"⟩] =
      (⟨[], [⟨"2024-01-01", -5, "Other", "refund adjustment", "expense"⟩], []⟩,
        .ok 0 1) ∧
    wellFormedRow
      ⟨some "2024-01-01", some (-5), "Other", "refund adjustment",
        "expense"⟩ ∧
    (rowTransaction
        ⟨some "2024-01-01", some (-5), "Other", "refund adjustment",
          "expense"⟩).amount ≤ 0 := by
  refine ⟨by decide, by decide, ?_⟩
  norm_num [rowTransaction]

/-- C10, amended: the import path runs no positivity check — a
well-formed, non-duplicate row whose amount is ≤ 0 is appended to its
kind sequence and counted as added — whereas `add_transaction` rejects
any amount ≤ 0 before mutating anything, so the positive-amount rule is
preserved by add but not by import. -/
theorem import_no_positivity_check (s : LedgerState) (r : RawRow) (q : ℚ)
    (hwf : wellFormedRow r) (hq : r.amount = some q) (hq0 : q ≤ 0)
    (hnd : rowTransaction r ∉ seqOf s r.transaction_type) :
    import_transactions s [r] =
      (appendTo s r.transaction_type (rowTransaction r), .ok 1 0) ∧
    ∀ (s2 : LedgerState) (ttype date description : String) (b : ℚ),
      b ≤ 0 → (ttype = "income" ∨ ttype = "expense") →
      add_transaction s2 ttype date b description = (s2, .invalidAmount) := by
  obtain ⟨hdate, hamt, htype⟩ := hwf
  constructor
  · have hany : [r].any (fun x => x.date.isNone) = false := by
      simp [Option.isNone_eq_false_iff, hdate]
    rw [import_transactions, hany]
    simp only [Bool.false_eq_true, if_false]
    rw [importLoop_cons_wf r [] s 0 0 hdate hamt]
    rcases htype with h1 | h1
    · rw [seqOf, if_pos h1] at hnd
      rw [if_pos h1, if_neg hnd]
      simp [importLoop, appendTo, h1]
    · rw [seqOf, if_neg (by rw [h1]; decide)] at hnd
      rw [if_neg (by rw [h1]; decide), if_pos h1, if_neg hnd]
      simp [importLoop, appendTo, h1]
  · intro s2 ttype date description b hb htype2
    rw [add_transaction,
      if_neg (fun h => htype2.elim (fun he => h.1 he) (fun he => h.2 he)),
      if_pos hb]

/-- Witness for C10 amended: importing a fresh −5 expense row into the
empty ledger appends it and counts it as added. -/
theorem import_no_positivity_check_witness :
    import_transactions ⟨[], [], []⟩
        [⟨some "2024-01-01", some (-5), "Other", "refund adjustment",
          "expense"⟩] =
      (appendTo ⟨[], [], []⟩ "expense"
        (rowTransaction
          ⟨some "2024-01-01", some (-5), "Other", "refund adjustment",
            "expense"⟩), .ok 1 0) :=
  (import_no_positivity_check ⟨[], [], []⟩
      ⟨some "2024-01-01", some (-5), "Other", "refund adjustment", "expense"⟩
      (-5) (by decide) rfl (by norm_num) (by decide)).1

/-! ### Deletion lemmas -/

/-- Membership in `insertDesc`. -/
lemma mem_insertDesc (i j : ℕ) :
    ∀ l : List ℕ, (j ∈ insertDesc i l ↔ j = i ∨ j ∈ l)
  | [] => by simp [insertDesc]
  | k :: rest => by
    rw [insertDesc]
    split_ifs with h1 h2
    · simp
    · subst h2
      simp only [List.mem_cons]
      tauto
    · simp only [List.mem_cons, mem_insertDesc i j rest]
      tauto

/-- `sortDescDedup` preserves membership. -/
lemma mem_sortDescDedup (j : ℕ) :
    ∀ l : List ℕ, (j ∈ sortDescDedup l ↔ j ∈ l)
  | [] => by simp [sortDescDedup]
  | k :: rest => by
    show j ∈ insertDesc k (sortDescDedup rest) ↔ _
    rw [mem_insertDesc, mem_sortDescDedup j rest]
    simp

/-- `insertDesc` preserves strict descent. -/
lemma pairwise_insertDesc (i : ℕ) :
    ∀ l : List ℕ, List.Pairwise (fun a b => b < a) l →
      List.Pairwise (fun a b => b < a) (insertDesc i l)
  | [], _ => by simp [insertDesc]
  | k :: rest, hp => by
    rw [insertDesc]
    obtain ⟨hk, hrest⟩ := List.pairwise_cons.mp hp
    split_ifs with h1 h2
    · exact List.pairwise_cons.mpr
        ⟨fun x hx => by
          rcases List.mem_cons.mp hx with rfl | hx
          · exact h1
          · exact lt_trans (hk x hx) h1, hp⟩
    · exact hp
    · refine List.pairwise_cons.mpr ⟨?_, pairwise_insertDesc i rest hrest⟩
      intro x hx
      rcases (mem_insertDesc i x rest).mp hx with rfl | hx
      · omega
      · exact hk x hx

/-- The deduplicated request list is strictly descending. -/
lemma pairwise_sortDescDedup :
    ∀ l : List ℕ, List.Pairwise (fun a b => b < a) (sortDescDedup l)
  | [] => List.Pairwise.nil
  | k :: rest => pairwise_insertDesc k _ (pairwise_sortDescDedup rest)

/-- On a duplicate-free list, removing the first occurrence of the
element at position `i` is removal at position `i`. -/
lemma removeFirst_get :
    ∀ (l : List Transaction) (i : ℕ) (h : i < l.length), l.Nodup →
      removeFirst (l.get ⟨i, h⟩) l = l.eraseIdx i
  | x :: xs, 0, _, _ => by simp [removeFirst]
  | x :: xs, i + 1, h, hnd => by
    have hi : i < xs.length := Nat.lt_of_succ_lt_succ h
    have hmem : xs.get ⟨i, hi⟩ ∈ xs := List.get_mem xs i hi
    have hne : ¬(x = xs.get ⟨i, hi⟩) := fun hx =>
      (List.nodup_cons.mp hnd).1 (hx ▸ hmem)
    have ih := removeFirst_get xs i hi (List.nodup_cons.mp hnd).2
    show removeFirst (xs.get ⟨i, hi⟩) (x :: xs) = x :: xs.eraseIdx i
    rw [removeFirst, if_neg hne, ih]

/-- `dropMarked` is the identity when every mark lies below the
offset. -/
lemma dropMarked_of_lt (idxs : List ℕ) :
    ∀ (l : List Transaction) (off : ℕ), (∀ j ∈ idxs, j < off) →
      dropMarked idxs off l = l
  | [], _, _ => rfl
  | x :: xs, off, hlt => by
    rw [dropMarked, if_neg (fun hmem => absurd (hlt off hmem) (by omega)),
      dropMarked_of_lt idxs xs (off + 1) (fun j hj => by have := hlt j hj; omega)]

/-- A mark at or beyond the window covered by the list is inert. -/
lemma dropMarked_cons_of_ge (i : ℕ) (idxs : List ℕ) :
    ∀ (l : List Transaction) (off : ℕ), off + l.length ≤ i →
      dropMarked (i :: idxs) off l = dropMarked idxs off l
  | [], _, _ => rfl
  | x :: xs, off, hle => by
    have hoi : off ≠ i := by simp at hle; omega
    have ih := dropMarked_cons_of_ge i idxs xs (off + 1)
      (by simp at hle ⊢; omega)
    rw [dropMarked, dropMarked]
    by_cases hmem : off ∈ idxs
    · rw [if_pos (List.mem_cons_of_mem i hmem), if_pos hmem, ih]
    · rw [if_neg (by simp [hoi, hmem]), if_neg hmem, ih]

/-- Marking position `i` (with all other marks below `i`) equals erasing
index `i - off` first and keeping the remaining marks. -/
lemma dropMarked_cons_eraseIdx (i : ℕ) (idxs : List ℕ)
    (hlt : ∀ j ∈ idxs, j < i) :
    ∀ (l : List Transaction) (off : ℕ), off ≤ i →
      dropMarked (i :: idxs) off l = dropMarked idxs off (l.eraseIdx (i - off))
  | [], _, _ => rfl
  | x :: xs, off, hoff => by
    by_cases hoi : off = i
    · subst hoi
      rw [dropMarked, if_pos (List.mem_cons_self off idxs), Nat.sub_self,
        List.eraseIdx_cons_zero,
        dropMarked_of_lt (off :: idxs) xs (off + 1)
          (fun j hj => by
            rcases List.mem_cons.mp hj with rfl | hj
            · omega
            · have := hlt j hj; omega),
        dropMarked_of_lt idxs xs off (fun j hj => hlt j hj)]
    · have hsub : i - off = (i - (off + 1)) + 1 := by omega
      have ih := dropMarked_cons_eraseIdx i idxs hlt xs (off + 1) (by omega)
      rw [hsub, List.eraseIdx_cons_succ, dropMarked, dropMarked]
      by_cases hmem : off ∈ idxs
      · rw [if_pos (List.mem_cons_of_mem i hmem), if_pos hmem, ih]
      · rw [if_neg (by simp [hoi, hmem]), if_neg hmem, ih]

/-- `dropMarked` only depends on which positions are marked. -/
lemma dropMarked_congr (a b : List ℕ) (hab : ∀ j, j ∈ a ↔ j ∈ b) :
    ∀ (l : List Transaction) (off : ℕ),
      dropMarked a off l = dropMarked b off l
  | [], _ => rfl
  | x :: xs, off => by
    have ih := dropMarked_congr a b hab xs (off + 1)
    rw [dropMarked, dropMarked]
    by_cases hmem : off ∈ b
    · rw [if_pos ((hab off).mpr hmem), if_pos hmem, ih]
    · rw [if_neg (fun hx => hmem ((hab off).mp hx)), if_neg hmem, ih]

/-- Running the deletion loop over strictly descending, in-range indices
from a state satisfying the per-kind invariant with duplicate-free
sequences removes exactly the addressed positions (income positions are
the indices below `income.length`, expense positions the rest, shifted)
and leaves the budgets alone. -/
lemma deleteLoop_spec :
    ∀ (idxs : List ℕ) (s : LedgerState),
      List.Pairwise (fun a b => b < a) idxs →
      (∀ i ∈ idxs, i < s.income.length + s.expense.length) →
      invariantHolds s → s.income.Nodup → s.expense.Nodup →
      deleteLoop idxs (s.income ++ s.expense) s =
        (⟨dropMarked idxs 0 s.income,
          dropMarked idxs s.income.length s.expense, s.budgets⟩, true)
  | [], s, _, _, _, _, _ => by
    rw [deleteLoop, dropMarked_of_lt [] s.income 0 (by simp),
      dropMarked_of_lt [] s.expense s.income.length (by simp)]
  | i :: rest, s, hpair, hrange, hinv, hni, hne => by
    obtain ⟨hihead, hptail⟩ := List.pairwise_cons.mp hpair
    have hi : i < s.income.length + s.expense.length :=
      hrange i (List.mem_cons_self _ _)
    by_cases hcase : i < s.income.length
    · have hget : (s.income ++ s.expense).get? i =
          some (s.income.get ⟨i, hcase⟩) := by
        rw [List.get?_append hcase]
        exact List.get?_eq_get hcase
      have htmem : s.income.get ⟨i, hcase⟩ ∈ s.income :=
        List.get_mem s.income i hcase
      have htype : (s.income.get ⟨i, hcase⟩).transaction_type = "income" :=
        hinv.1 _ htmem
      have hstep : deleteStep s (s.income.get ⟨i, hcase⟩) =
          some ⟨s.income.eraseIdx i, s.expense, s.budgets⟩ := by
        rw [deleteStep, if_pos htype, if_pos htmem,
          removeFirst_get s.income i hcase hni]
      have hview : (s.income ++ s.expense).eraseIdx i =
          s.income.eraseIdx i ++ s.expense :=
        List.eraseIdx_append_of_lt_length hcase s.expense
      have hlenA : (s.income.eraseIdx i).length = s.income.length - 1 := by
        rw [List.length_eraseIdx]
        simp [hcase]
      have ih := deleteLoop_spec rest
        ⟨s.income.eraseIdx i, s.expense, s.budgets⟩ hptail
        (by intro j hj
            have hji := hihead j hj
            dsimp only
            rw [hlenA]
            omega)
        (by refine ⟨fun t ht => hinv.1 t ?_, fun t ht => hinv.2 t ht⟩
            exact (List.eraseIdx_sublist s.income i).subset ht)
        ((List.eraseIdx_sublist s.income i).nodup hni) hne
      have e1 : dropMarked rest 0 (s.income.eraseIdx i) =
          dropMarked (i :: rest) 0 s.income := by
        have := dropMarked_cons_eraseIdx i rest
          (fun j hj => hihead j hj) s.income 0 (Nat.zero_le i)
        rw [Nat.sub_zero] at this
        exact this.symm
      have e2 : dropMarked rest (s.income.eraseIdx i).length s.expense =
          dropMarked (i :: rest) s.income.length s.expense := by
        rw [hlenA,
          dropMarked_of_lt rest s.expense (s.income.length - 1)
            (fun j hj => by have := hihead j hj; omega),
          dropMarked_of_lt (i :: rest) s.expense s.income.length
            (fun j hj => by
              rcases List.mem_cons.mp hj with rfl | hj
              · exact hcase
              · have := hihead j hj; omega)]
      rw [deleteLoop, hget]
      dsimp only
      rw [hstep]
      dsimp only
      rw [hview]
      rw [ih, e1, e2]
    · have hle : s.income.length ≤ i := not_lt.mp hcase
      have hk : i - s.income.length < s.expense.length := by omega
      have hget : (s.income ++ s.expense).get? i =
          some (s.expense.get ⟨i - s.income.length, hk⟩) := by
        rw [List.get?_append_right hle]
        exact List.get?_eq_get hk
      have htmem : s.expense.get ⟨i - s.income.length, hk⟩ ∈ s.expense :=
        List.get_mem s.expense _ hk
      have htype :
          (s.expense.get ⟨i - s.income.length, hk⟩).transaction_type =
            "expense" := hinv.2 _ htmem
      have hstep : deleteStep s (s.expense.get ⟨i - s.income.length, hk⟩) =
          some ⟨s.income, s.expense.eraseIdx (i - s.income.length),
            s.budgets⟩ := by
        rw [deleteStep, if_neg (by rw [htype]; decide), if_pos htype,
          if_pos htmem, removeFirst_get s.expense _ hk hne]
      have hview : (s.income ++ s.expense).eraseIdx i =
          s.income ++ s.expense.eraseIdx (i - s.income.length) :=
        List.eraseIdx_append_of_length_le hle s.expense
      have hlenB : (s.expense.eraseIdx (i - s.income.length)).length =
          s.expense.length - 1 := by
        rw [List.length_eraseIdx]
        simp [hk]
      have ih := deleteLoop_spec rest
        ⟨s.income, s.expense.eraseIdx (i - s.income.length), s.budgets⟩ hptail
        (by intro j hj
            have hji := hihead j hj
            dsimp only
            rw [hlenB]
            omega)
        (by refine ⟨fun t ht => hinv.1 t ht, fun t ht => hinv.2 t ?_⟩
            exact (List.eraseIdx_sublist s.expense _).subset ht)
        hni ((List.eraseIdx_sublist s.expense _).nodup hne)
      have e1 : dropMarked rest 0 s.income =
          dropMarked (i :: rest) 0 s.income :=
        (dropMarked_cons_of_ge i rest s.income 0 (by omega)).symm
      have e2 : dropMarked rest s.income.length
            (s.expense.eraseIdx (i - s.income.length)) =
          dropMarked (i :: rest) s.income.length s.expense :=
        (dropMarked_cons_eraseIdx i rest (fun j hj => hihead j hj)
          s.expense s.income.length hle).symm
      rw [deleteLoop, hget]
      dsimp only
      rw [hstep]
      dsimp only
      rw [hview]
      rw [ih, e1, e2]

/-- C5: deletion is all-or-nothing over the combined income-then-expense
view.  If any requested index is out of range, nothing is deleted and
`IndexOutOfRange` is reported; if all are in range (on a state
satisfying the per-kind invariant, with duplicate-free sequences),
exactly the addressed positions are removed — the income entries at the
requested indices below `income.length`, the expense entries at the
remaining requested indices shifted by `income.length` — and the budget
map and all other entries are unchanged. -/
theorem delete_all_or_nothing (s : LedgerState) (indices : List ℕ)
    (hinv : invariantHolds s) (hni : s.income.Nodup) (hne : s.expense.Nodup) :
    ((∃ i ∈ indices, ¬ i < s.income.length + s.expense.length) →
      delete_transaction s indices = (s, .indexOutOfRange)) ∧
    ((∀ i ∈ indices, i < s.income.length + s.expense.length) →
      delete_transaction s indices =
        (⟨dropMarked indices 0 s.income,
          dropMarked indices s.income.length s.expense, s.budgets⟩, .ok)) := by
  constructor
  · rintro ⟨i, hm, hnot⟩
    have hall : (sortDescDedup indices).all
        (fun j => decide (j < (s.income ++ s.expense).length)) = false := by
      rw [List.all_eq_false]
      refine ⟨i, (mem_sortDescDedup i indices).mpr hm, ?_⟩
      simp only [List.length_append, decide_eq_true_eq]
      exact hnot
    rw [delete_transaction]
    simp only [hall, Bool.false_eq_true, if_false]
  · intro hall
    have hall2 : ∀ j ∈ sortDescDedup indices,
        j < s.income.length + s.expense.length := fun j hj =>
      hall j ((mem_sortDescDedup j indices).mp hj)
    have hguard : (sortDescDedup indices).all
        (fun j => decide (j < (s.income ++ s.expense).length)) = true := by
      rw [List.all_eq_true]
      intro j hj
      simp only [List.length_append, decide_eq_true_eq]
      exact hall2 j hj
    have hloop := deleteLoop_spec (sortDescDedup indices) s
      (pairwise_sortDescDedup indices) hall2 hinv hni hne
    rw [delete_transaction]
    simp only [hguard, if_true]
    rw [hloop]
    rw [dropMarked_congr (sortDescDedup indices) indices
        (fun j => mem_sortDescDedup j indices) s.income 0,
      dropMarked_congr (sortDescDedup indices) indices
        (fun j => mem_sortDescDedup j indices) s.expense s.income.length]

/-- Witness for C5: deleting indices `{2, 0}` from a ledger with one
income and two expenses removes the income entry and the second expense
entry. -/
theorem delete_all_or_nothing_witness :
    delete_transaction
        ⟨[⟨"2024-01-01", 100, "Salary", "pay", "income"⟩],
         [⟨"2024-01-02", 30, "Groceries", "food run", "expense"⟩,
          ⟨"2024-01-03", 20, "Transportation", "bus fare", "expense"⟩],
         [("Groceries", 50)]⟩ [2, 0] =
      (⟨dropMarked [2, 0] 0 [⟨"2024-01-01", 100, "Salary", "pay", "income"⟩],
        dropMarked [2, 0] 1
          [⟨"2024-01-02", 30, "Groceries", "food run", "expense"⟩,
           ⟨"2024-01-03", 20, "Transportation", "bus fare", "expense"⟩],
        [("Groceries", 50)]⟩, .ok) :=
  (delete_all_or_nothing
      ⟨[⟨"2024-01-01", 100, "Salary", "pay", "income"⟩],
       [⟨"2024-01-02", 30, "Groceries", "food run", "expense"⟩,
        ⟨"2024-01-03", 20, "Transportation", "bus fare", "expense"⟩],
       [("Groceries", 50)]⟩ [2, 0]
      (by decide) (by decide) (by decide)).2 (by decide)

end FinanceTracker
